import Mathlib

/-
Verification of the byte-level JSON scanner in parser.go (package jsonparser).

The buffer is modelled as a list of byte values (each a natural number below 256,
written as plain naturals).  Every Go function that the claims touch is translated
one-to-one:

* tokenEnd, nextToken, nextArrayElement, stringEnd are range loops over the slice
  and become structural recursions carrying the running index;
* blockEnd and searchKeys are index loops whose index can jump, so they become
  fuel-indexed recursions; for blockEnd the index strictly increases each step, so
  the wrapper fuel `length + 1` can never run out, while searchKeys genuinely can
  fail to terminate (see the C2 theorem), which the fuel model reports as `none`;
* Go slicing data[i:] and data[a:b] become List.drop and List.take;
* the -1 "absent" sentinel is kept as the integer -1, exactly as in the source;
* Go error values become the GoErr inductive.  Two call sites build fresh errors
  with errors.New instead of reusing the package-level variables; since a fresh
  Go error value compares unequal to every other error value, those sites get
  their own constructors (newMalformedJson for Get line 224, newUnknownValueType
  for the default branch of GetValue line 286);
* the visitor callback of ArrayEach is modelled by accumulating the list of
  invocations in order.
-/

set_option maxHeartbeats 1000000

set_option synthInstance.maxSize 512

namespace Jsonparser

/-- Byte sequence of an ASCII string literal, used to write concrete JSON inputs. -/
def bytes (s : String) : List Nat := s.data.map Char.toNat

/-- Byte of `data` at index `i` (0 when out of range; every use in the model mirrors
a bounds-checked access in the Go source). -/
def byteAt (data : List Nat) (i : Nat) : Nat := (data.drop i).headD 0

/-- Whitespace bytes of the Go switch cases: space, newline, carriage return, tab. -/
def isWS (c : Nat) : Bool := c == 32 || c == 10 || c == 13 || c == 9

/-- Token terminator bytes of tokenEnd (parser.go 26-35): whitespace, comma,
closing brace, closing bracket. -/
def isTokenEndByte (c : Nat) : Bool :=
  c == 32 || c == 10 || c == 13 || c == 9 || c == 44 || c == 125 || c == 93

def tokenEndAux : List Nat → Nat → Int
  | [], _ => -1
  | c :: rest, i => if isTokenEndByte c then (i : Int) else tokenEndAux rest (i + 1)

/-- tokenEnd (parser.go 26-35): index of the first token terminator byte, -1 if none. -/
def tokenEnd (data : List Nat) : Int := tokenEndAux data 0

def nextTokenAux : List Nat → Nat → Int
  | [], _ => -1
  | c :: rest, i => if isWS c then nextTokenAux rest (i + 1) else (i : Int)

/-- nextToken (parser.go 38-49): index of the first byte that is not whitespace,
-1 if none. -/
def nextToken (data : List Nat) : Int := nextTokenAux data 0

def nextArrayElementAux : List Nat → Nat → Bool → Int
  | [], _, _ => -1
  | c :: rest, i, seenComma =>
    if isWS c then nextArrayElementAux rest (i + 1) seenComma
    else if c == 44 then
      (if seenComma then -1 else nextArrayElementAux rest (i + 1) true)
    else if seenComma then (i : Int) else -1

/-- nextArrayElement (parser.go 53-75): skip whitespace and exactly one comma, then
return the index of the next non-whitespace byte; -1 when a non-whitespace,
non-comma byte is hit before the comma, or when a second comma is hit. -/
def nextArrayElement (data : List Nat) : Int := nextArrayElementAux data 0 false

/-- Number of consecutive backslash bytes immediately before index `i`: the quantity
whose parity the inner backward loop of stringEnd (parser.go 83-93) determines. -/
def precBackslashes (data : List Nat) : Nat → Nat
  | 0 => 0
  | j + 1 => if byteAt data j == 92 then precBackslashes data j + 1 else 0

def stringEndAux (data : List Nat) : List Nat → Nat → Int
  | [], _ => -1
  | c :: rest, i =>
    if c == 34 && precBackslashes data i % 2 == 0 then (i : Int) + 1
    else stringEndAux data rest (i + 1)

/-- stringEnd (parser.go 79-98): index one past the first double-quote byte preceded
by an even run of backslashes; a quote preceded by an odd run is escaped and is
skipped; -1 when no terminating quote exists. -/
def stringEnd (data : List Nat) : Int := stringEndAux data data 0

/-- Worded from the specification section 4.1 for comparison with `stringEnd`: the
first candidate quote whose count of consecutive preceding backslashes is even,
located by a plain search over all indices; result is one past it, or -1. -/
def specStringEnd (data : List Nat) : Int :=
  match (List.range data.length).find?
      (fun i => byteAt data i == 34 && precBackslashes data i % 2 == 0) with
  | some i => (i : Int) + 1
  | none => -1

def blockEndLoop (data : List Nat) (openSym closeSym : Nat) : Nat → Nat → Int → Int
  | 0, _, _ => -1
  | fuel + 1, i, level =>
    if i < data.length then
      (if byteAt data i == 34 then
        (let se := stringEnd (data.drop (i + 1))
         if se == -1 then -1
         else blockEndLoop data openSym closeSym fuel (i + se.toNat + 1) level)
      else if byteAt data i == openSym then
        blockEndLoop data openSym closeSym fuel (i + 1) (level + 1)
      else if byteAt data i == closeSym then
        (if level - 1 == 0 then (i : Int) + 1
         else blockEndLoop data openSym closeSym fuel (i + 1) (level - 1))
      else blockEndLoop data openSym closeSym fuel (i + 1) level)
    else -1

/-- blockEnd (parser.go 102-129): one past the byte where nesting depth returns to
zero, skipping quoted strings; -1 when the close symbol is missing.  The index
strictly increases every iteration, so fuel `length + 1` is never exhausted. -/
def blockEnd (data : List Nat) (openSym closeSym : Nat) : Int :=
  blockEndLoop data openSym closeSym (data.length + 1) 0 0

/-- Outcome of searchKeys: a returned integer, or a Go runtime panic from indexing
the buffer at a negative position (reachable because the open-bracket case adds
`blockEnd - 1` to the index without checking for the -1 sentinel). -/
inductive SKOut
  | ret (n : Int)
  | panicked
  deriving DecidableEq

/-- Loop body of searchKeys (parser.go 131-187), fuel-indexed because the open-bracket case
can move the index backwards (see the C2 theorem).  `none` means the fuel ran out,
`some (ret n)` a Go return of n, `some panicked` a Go index-out-of-range panic. -/
def searchKeysLoop (data : List Nat) (keys : List (List Nat)) :
    Nat → Int → Nat → Int → Option SKOut
  | 0, _, _, _ => none
  | fuel + 1, i, keyLevel, level =>
    if i ≥ (data.length : Int) then some (.ret (-1))
    else if i < 0 then some .panicked
    else
      let n := i.toNat
      let c := byteAt data n
      if c == 34 then
        -- i++ then keyBegin := i
        let keyBegin := n + 1
        let strEnd := stringEnd (data.drop keyBegin)
        if strEnd == -1 then some (.ret (-1))
        else
          -- i += strEnd; keyEnd := i - 1
          let i2 := keyBegin + strEnd.toNat
          let keyEnd := i2 - 1
          let valueOffset := nextToken (data.drop i2)
          if valueOffset == -1 then some (.ret (-1))
          else
            -- i += valueOffset
            let i3 := i2 + valueOffset.toNat
            if byteAt data i3 == 58 then
              let key := (data.drop keyBegin).take (keyEnd - keyBegin)
              if (keyLevel : Int) == level - 1 then
                match keys.get? (level - 1).toNat with
                | none => some .panicked
                | some pathKey =>
                  if pathKey == key then
                    (if keyLevel + 1 == keys.length then some (.ret ((i3 : Int) + 1))
                     else searchKeysLoop data keys fuel ((i3 : Int) + 1) (keyLevel + 1) level)
                  else searchKeysLoop data keys fuel ((i3 : Int) + 1) keyLevel level
              else searchKeysLoop data keys fuel ((i3 : Int) + 1) keyLevel level
            else
              -- not a key: i-- then i++ leaves the index at i3
              searchKeysLoop data keys fuel (i3 : Int) keyLevel level
      else if c == 123 then searchKeysLoop data keys fuel (i + 1) keyLevel (level + 1)
      else if c == 125 then searchKeysLoop data keys fuel (i + 1) keyLevel (level - 1)
      else if c == 91 then
        -- i += blockEnd(data[i:], open bracket, close bracket) - 1 and then i++
        let arraySkip := blockEnd (data.drop n) 91 93
        searchKeysLoop data keys fuel (i + arraySkip) keyLevel level
      else searchKeysLoop data keys fuel (i + 1) keyLevel level

/-- searchKeys (parser.go 131-187) with enough fuel for every terminating run on
well-formed input (the index then strictly increases per iteration). -/
def searchKeys (data : List Nat) (keys : List (List Nat)) : Option SKOut :=
  searchKeysLoop data keys (data.length + 2) 0 0 0

/-- Data types available in valid JSON data (parser.go 190-201). -/
inductive ValueType
  | NotExist
  | String
  | Number
  | Object
  | Array
  | Boolean
  | Null
  | Unknown
  deriving DecidableEq

/-- Go error values of the package.  Constructors newMalformedJson and
newUnknownValueType model the two errors.New call sites (Get line 224, GetValue
line 286): a fresh Go error value is distinct from every package-level error
variable even when the message text coincides. -/
inductive GoErr
  | keyPathNotFound
  | unknownValueType
  | malformedJson
  | malformedString
  | malformedArray
  | malformedObject
  | malformedNumber
  | malformedLiteral
  | expectedArray
  | newMalformedJson
  | newUnknownValueType
  deriving DecidableEq

def trueLiteral : List Nat := bytes "true"

def falseLiteral : List Nat := bytes "false"

def nullLiteral : List Nat := bytes "null"

/-- GetValue (parser.go 243-288): classify the value starting at the head of the
buffer; result quadruple is (value, dataType, offset, err). -/
def GetValue (data : List Nat) : List Nat × ValueType × Int × Option GoErr :=
  match data with
  | [] => ([], .Unknown, -1, some .unknownValueType)
  | c :: rest =>
    if c == 34 then
      (let se := stringEnd rest
       if se == -1 then ([], .Unknown, -1, some .malformedString)
       else (rest.take (se.toNat - 1), .String, se + 1, none))
    else if c == 91 then
      (let bl := blockEnd data 91 93
       if bl == -1 then ([], .Unknown, -1, some .malformedArray)
       else (data.take bl.toNat, .Array, bl, none))
    else if c == 123 then
      (let bl := blockEnd data 123 125
       if bl == -1 then ([], .Unknown, -1, some .malformedObject)
       else (data.take bl.toNat, .Object, bl, none))
    else if c == 116 || c == 102 || c == 110 then
      (let tl := tokenEnd data
       if tl == -1 then ([], .Unknown, -1, some .malformedLiteral)
       else
         let v := data.take tl.toNat
         if v == nullLiteral then ([], .Null, tl, none)
         else if v == trueLiteral || v == falseLiteral then (v, .Boolean, tl, none)
         else ([], .Unknown, -1, some .unknownValueType))
    else if c == 48 || c == 49 || c == 50 || c == 51 || c == 52 || c == 53 ||
        c == 54 || c == 55 || c == 56 || c == 57 || c == 45 then
      (let tl := tokenEnd data
       if tl == -1 then ([], .Unknown, -1, some .malformedNumber)
       else (data.take tl.toNat, .Number, tl, none))
    else ([], .Unknown, -1, some .newUnknownValueType)

/-- Get (parser.go 215-234).  `none` marks a run whose searchKeys call panicked or
failed to terminate; otherwise the Go quadruple (value, dataType, offset, err).
The searchKeys result check `offset == -1` is reached with offset 0 when the key
list is empty, exactly as in the source where the check sits inside the
`len(keys) > 0` branch. -/
def Get (data : List Nat) (keys : List (List Nat)) :
    Option (List Nat × ValueType × Int × Option GoErr) :=
  match (if keys.length > 0 then searchKeys data keys else some (.ret 0)) with
  | none => none
  | some .panicked => none
  | some (.ret offset) =>
    if offset == -1 then some ([], .NotExist, -1, some .keyPathNotFound)
    else
      let skipToToken := nextToken (data.drop offset.toNat)
      if skipToToken == -1 then some ([], .Unknown, -1, some .newMalformedJson)
      else
        let offset2 := offset + skipToToken
        match GetValue (data.drop offset2.toNat) with
        | (value, dataType, valueOffset, none) =>
          some (value, dataType, offset2 + valueOffset, none)
        | (_, _, _, some e) => some ([], .Unknown, -1, some e)

/-- One visitor invocation of ArrayEach: the arguments (value, dataType, offset,
err) passed to the callback. -/
abbrev CBCall := List Nat × ValueType × Int × Option GoErr

/-- Element loop of ArrayEach (parser.go 320-344), accumulating the visitor
invocations in order.  Fuel `length + 1` is never exhausted: every continuing
iteration moves the cursor forward by at least two. -/
def arrayEachLoop (arrayValue : List Nat) (base : Int) :
    Nat → Int → List CBCall → Option (List CBCall × Option GoErr)
  | 0, _, _ => none
  | fuel + 1, offsetInArray, acc =>
    if offsetInArray < (arrayValue.length : Int) - 1 then
      let r := GetValue (arrayValue.drop offsetInArray.toNat)
      let off2 := offsetInArray + r.2.2.1
      if r.2.1 = ValueType.NotExist then some (acc, none)
      else
        let acc2 := acc ++ [(r.1, r.2.1, base + off2, r.2.2.2)]
        if r.2.2.2.isSome then some (acc2, none)
        else
          let na := nextArrayElement (arrayValue.drop off2.toNat)
          if na == -1 then some (acc2, some .malformedArray)
          else arrayEachLoop arrayValue base fuel (off2 + na) acc2
    else some (acc, none)

/-- ArrayEach (parser.go 304-348).  Returns the ordered list of visitor
invocations together with the Go return error (`none` only if a searchKeys call
inside Get panicked or failed to terminate). -/
def ArrayEach (data : List Nat) (keys : List (List Nat)) :
    Option (List CBCall × Option GoErr) :=
  match Get data keys with
  | none => none
  | some (_, _, _, some e) => some ([], some e)
  | some (arrayValue, dataType, arrayOffset, none) =>
    if dataType ≠ ValueType.Array then some ([], some .expectedArray)
    else
      let base := arrayOffset - (arrayValue.length : Int)
      let skipToFirstValue := nextToken (arrayValue.drop 1)
      if skipToFirstValue == -1 then some ([], some .malformedArray)
      else arrayEachLoop arrayValue base (arrayValue.length + 1) (1 + skipToFirstValue) []

-- Concrete JSON inputs used by the claims.

/-- The buffer of two bytes, an opening brace then an opening bracket, on which
searchKeys fails to terminate. -/
def bugInput : List Nat := [123, 91]

/-- The JSON text with an object mapping key a to an object mapping key b to 1. -/
def nestedObjInput : List Nat := bytes "\x7b\"a\":\x7b\"b\":1\x7d\x7d"

/-- The JSON text with an object mapping key a to the array holding 1 and 2. -/
def objWithArrayInput : List Nat := bytes "\x7b\"a\":[1,2]\x7d"

-- Helper lemmas.

theorem byteAt_cons_zero (c : Nat) (rest : List Nat) : byteAt (c :: rest) 0 = c := rfl

theorem byteAt_cons_succ (c : Nat) (rest : List Nat) (j : Nat) :
    byteAt (c :: rest) (j + 1) = byteAt rest j := rfl

theorem byteAt_drop (data : List Nat) (k j : Nat) :
    byteAt (data.drop k) j = byteAt data (k + j) := by
  unfold byteAt
  rw [List.drop_drop]

/-- The scanning loop of stringEnd finds exactly the first index at or beyond the
cursor holding a quote with an even run of preceding backslashes. -/
theorem stringEndAux_eq_find (data : List Nat) (rest : List Nat) :
    ∀ k : Nat, data.drop k = rest →
      stringEndAux data rest k =
        (match (List.range' k rest.length).find?
            (fun i => byteAt data i == 34 && precBackslashes data i % 2 == 0) with
         | some i => (i : Int) + 1
         | none => -1) := by
  induction rest with
  | nil => intro k _; rfl
  | cons c rest ih =>
    intro k hk
    have hc : byteAt data k = c := by
      unfold byteAt; rw [hk]; rfl
    have hdrop : data.drop (k + 1) = rest := by
      rw [← List.drop_drop, hk]
      rfl
    show (if c == 34 && precBackslashes data k % 2 == 0 then ((k : Int) + 1)
          else stringEndAux data rest (k + 1)) = _
    by_cases hp : (byteAt data k == 34 && precBackslashes data k % 2 == 0) = true
    · have hp' : (c == 34 && precBackslashes data k % 2 == 0) = true := by
        rw [← hc]; exact hp
      have hfind : List.find? (fun i => byteAt data i == 34 && precBackslashes data i % 2 == 0)
          (k :: List.range' (k + 1) rest.length) = some k :=
        List.find?_cons_of_pos _ hp
      rw [if_pos hp', List.length_cons, List.range'_succ, hfind]
    · have hp' : ¬ ((c == 34 && precBackslashes data k % 2 == 0) = true) := by
        rw [← hc]; exact hp
      have hfind : List.find? (fun i => byteAt data i == 34 && precBackslashes data i % 2 == 0)
          (k :: List.range' (k + 1) rest.length) =
          List.find? (fun i => byteAt data i == 34 && precBackslashes data i % 2 == 0)
            (List.range' (k + 1) rest.length) :=
        List.find?_cons_of_neg _ (by simpa using hp)
      rw [if_neg hp', ih (k + 1) hdrop, List.length_cons, List.range'_succ, hfind]

/-- stringEnd agrees with the specification-worded search everywhere. -/
theorem stringEnd_eq_specStringEnd (data : List Nat) : stringEnd data = specStringEnd data := by
  unfold stringEnd specStringEnd
  rw [stringEndAux_eq_find data data 0 rfl, List.range_eq_range']

/-- A successful stringEnd result is one past an in-range quote byte. -/
theorem stringEnd_cases (data : List Nat) :
    stringEnd data = -1 ∨
      ∃ q : Nat, q < data.length ∧ stringEnd data = ((q : Int) + 1) ∧ byteAt data q = 34 := by
  rw [stringEnd_eq_specStringEnd]
  unfold specStringEnd
  cases hf : (List.range data.length).find?
      (fun i => byteAt data i == 34 && precBackslashes data i % 2 == 0) with
  | none => left; rfl
  | some q =>
    right
    refine ⟨q, List.mem_range.mp (List.mem_of_find?_eq_some hf), rfl, ?_⟩
    have hq := List.find?_some hf
    simp only [Bool.and_eq_true, beq_iff_eq] at hq
    exact hq.1

/-- A successful tokenEnd result is an in-range index holding a terminator byte. -/
theorem tokenEndAux_cases : ∀ (l : List Nat) (k : Nat),
    tokenEndAux l k = -1 ∨
      ∃ j : Nat, j < l.length ∧ tokenEndAux l k = ((k + j : Nat) : Int) ∧
        isTokenEndByte (byteAt l j) = true := by
  intro l
  induction l with
  | nil => intro k; left; rfl
  | cons c rest ih =>
    intro k
    by_cases hc : isTokenEndByte c = true
    · right
      refine ⟨0, by simp, ?_, hc⟩
      show (if isTokenEndByte c then ((k : Int)) else tokenEndAux rest (k + 1)) = _
      rw [if_pos hc]
      norm_num
    · have heq : tokenEndAux (c :: rest) k = tokenEndAux rest (k + 1) := by
        show (if isTokenEndByte c then ((k : Int)) else tokenEndAux rest (k + 1)) = _
        rw [if_neg hc]
      rcases ih (k + 1) with h | ⟨j, hj, hval, hbyte⟩
      · left; rw [heq]; exact h
      · right
        refine ⟨j + 1, by simpa using Nat.succ_lt_succ hj, ?_, hbyte⟩
        rw [heq, hval]
        congr 1
        omega

theorem tokenEnd_cases (data : List Nat) :
    tokenEnd data = -1 ∨
      ∃ n : Nat, n < data.length ∧ tokenEnd data = ((n : Nat) : Int) ∧
        isTokenEndByte (byteAt data n) = true := by
  rcases tokenEndAux_cases data 0 with h | ⟨j, hj, hval, hbyte⟩
  · left; exact h
  · right; exact ⟨j, hj, by simpa using hval, hbyte⟩

/-- On a buffer of nothing but whitespace, nextToken reports absence. -/
theorem nextTokenAux_all_ws : ∀ (l : List Nat) (k : Nat), (∀ b ∈ l, isWS b = true) →
    nextTokenAux l k = -1 := by
  intro l
  induction l with
  | nil => intro k _; rfl
  | cons c rest ih =>
    intro k h
    have hc : isWS c = true := h c (by simp)
    show (if isWS c then nextTokenAux rest (k + 1) else ((k : Int))) = -1
    rw [if_pos hc]
    exact ih (k + 1) (fun b hb => h b (by simp [hb]))

/-- A successful blockEndLoop result is one past an in-range close-symbol byte. -/
theorem blockEndLoop_cases (data : List Nat) (o cl : Nat) :
    ∀ (fuel i : Nat) (level : Int),
      blockEndLoop data o cl fuel i level = -1 ∨
        ∃ n : Nat, n < data.length ∧ blockEndLoop data o cl fuel i level = ((n : Int) + 1) ∧
          byteAt data n = cl := by
  intro fuel
  induction fuel with
  | zero => intro i level; left; rfl
  | succ f ih =>
    intro i level
    simp only [blockEndLoop]
    by_cases h1 : i < data.length
    · rw [if_pos h1]
      by_cases h2 : (byteAt data i == 34) = true
      · rw [if_pos h2]
        by_cases h3 : (stringEnd (data.drop (i + 1)) == -1) = true
        · rw [if_pos h3]; left; rfl
        · rw [if_neg h3]; exact ih _ _
      · rw [if_neg h2]
        by_cases h4 : (byteAt data i == o) = true
        · rw [if_pos h4]; exact ih _ _
        · rw [if_neg h4]
          by_cases h5 : (byteAt data i == cl) = true
          · rw [if_pos h5]
            by_cases h6 : ((level - 1 : Int) == 0) = true
            · rw [if_pos h6]
              right
              exact ⟨i, h1, rfl, by simpa using h5⟩
            · rw [if_neg h6]; exact ih _ _
          · rw [if_neg h5]; exact ih _ _
    · rw [if_neg h1]; left; rfl

theorem blockEnd_cases (data : List Nat) (o cl : Nat) :
    blockEnd data o cl = -1 ∨
      ∃ n : Nat, n < data.length ∧ blockEnd data o cl = ((n : Int) + 1) ∧
        byteAt data n = cl :=
  blockEndLoop_cases data o cl (data.length + 1) 0 0

/-- C5: whenever GetValue succeeds, its returned offset lands exactly on the first
byte after the terminating character of the value: one past the closing quote for
strings, one past the closing bracket or brace for arrays and objects, and exactly
at the still unconsumed token terminator for numbers, booleans and null. -/
theorem getValue_offset_lands (data v : List Nat) (t : ValueType) (off : Int)
    (h : GetValue data = (v, t, off, none)) :
    (t = ValueType.String → 1 ≤ off ∧ byteAt data (off.toNat - 1) = 34) ∧
    (t = ValueType.Array → 1 ≤ off ∧ byteAt data (off.toNat - 1) = 93) ∧
    (t = ValueType.Object → 1 ≤ off ∧ byteAt data (off.toNat - 1) = 125) ∧
    ((t = ValueType.Number ∨ t = ValueType.Boolean ∨ t = ValueType.Null) →
      0 ≤ off ∧ off.toNat < data.length ∧ isTokenEndByte (byteAt data off.toNat) = true) := by
  cases data with
  | nil => simp [GetValue] at h
  | cons c rest =>
    simp only [GetValue] at h
    split at h
    · -- string value
      split at h
      · simp at h
      · rename_i hse
        simp only [Prod.mk.injEq] at h
        obtain ⟨hv, ht, hoff, -⟩ := h
        subst ht
        rcases stringEnd_cases rest with hneg | ⟨q, hlt, hval, hquote⟩
        · simp [hneg] at hse
        · refine ⟨fun _ => ?_, fun hx => absurd hx (by decide),
            fun hx => absurd hx (by decide), fun hx => ?_⟩
          · constructor
            · omega
            · have hidx : off.toNat - 1 = q + 1 := by omega
              rw [hidx, byteAt_cons_succ]
              exact hquote
          · rcases hx with hx | hx | hx <;> exact absurd hx (by decide)
    · split at h
      · -- array value
        split at h
        · simp at h
        · rename_i hbl
          simp only [Prod.mk.injEq] at h
          obtain ⟨hv, ht, hoff, -⟩ := h
          subst ht
          rcases blockEnd_cases (c :: rest) 91 93 with hneg | ⟨n, hlt, hval, hclose⟩
          · simp [hneg] at hbl
          · refine ⟨fun hx => absurd hx (by decide), fun _ => ?_,
              fun hx => absurd hx (by decide), fun hx => ?_⟩
            · constructor
              · omega
              · have hidx : off.toNat - 1 = n := by omega
                rw [hidx]
                exact hclose
            · rcases hx with hx | hx | hx <;> exact absurd hx (by decide)
      · split at h
        · -- object value
          split at h
          · simp at h
          · rename_i hbl
            simp only [Prod.mk.injEq] at h
            obtain ⟨hv, ht, hoff, -⟩ := h
            subst ht
            rcases blockEnd_cases (c :: rest) 123 125 with hneg | ⟨n, hlt, hval, hclose⟩
            · simp [hneg] at hbl
            · refine ⟨fun hx => absurd hx (by decide), fun hx => absurd hx (by decide),
                fun _ => ?_, fun hx => ?_⟩
              · constructor
                · omega
                · have hidx : off.toNat - 1 = n := by omega
                  rw [hidx]
                  exact hclose
              · rcases hx with hx | hx | hx <;> exact absurd hx (by decide)
        · split at h
          · -- literal value
            split at h
            · simp at h
            · rename_i htl
              split at h
              · -- null
                simp only [Prod.mk.injEq] at h
                obtain ⟨hv, ht, hoff, -⟩ := h
                subst ht
                rcases tokenEnd_cases (c :: rest) with hneg | ⟨n, hlt, hval, hterm⟩
                · simp [hneg] at htl
                · refine ⟨fun hx => absurd hx (by decide), fun hx => absurd hx (by decide),
                    fun hx => absurd hx (by decide), fun _ => ?_⟩
                  refine ⟨by omega, ?_, ?_⟩
                  · have hidx : off.toNat = n := by omega
                    rw [hidx]
                    exact hlt
                  · have hidx : off.toNat = n := by omega
                    rw [hidx]
                    exact hterm
              · split at h
                · -- boolean
                  simp only [Prod.mk.injEq] at h
                  obtain ⟨hv, ht, hoff, -⟩ := h
                  subst ht
                  rcases tokenEnd_cases (c :: rest) with hneg | ⟨n, hlt, hval, hterm⟩
                  · simp [hneg] at htl
                  · refine ⟨fun hx => absurd hx (by decide), fun hx => absurd hx (by decide),
                      fun hx => absurd hx (by decide), fun _ => ?_⟩
                    refine ⟨by omega, ?_, ?_⟩
                    · have hidx : off.toNat = n := by omega
                      rw [hidx]
                      exact hlt
                    · have hidx : off.toNat = n := by omega
                      rw [hidx]
                      exact hterm
                · simp at h
          · split at h
            · -- number value
              split at h
              · simp at h
              · rename_i htl
                simp only [Prod.mk.injEq] at h
                obtain ⟨hv, ht, hoff, -⟩ := h
                subst ht
                rcases tokenEnd_cases (c :: rest) with hneg | ⟨n, hlt, hval, hterm⟩
                · simp [hneg] at htl
                · refine ⟨fun hx => absurd hx (by decide), fun hx => absurd hx (by decide),
                    fun hx => absurd hx (by decide), fun _ => ?_⟩
                  refine ⟨by omega, ?_, ?_⟩
                  · have hidx : off.toNat = n := by omega
                    rw [hidx]
                    exact hlt
                  · have hidx : off.toNat = n := by omega
                    rw [hidx]
                    exact hterm
            · simp at h

/-- Witness for getValue_offset_lands at four concrete successful inputs, one per
value family. -/
theorem getValue_offset_lands_witness :
    (1 ≤ (4 : Int) ∧ byteAt (bytes "\"ab\"") ((4 : Int).toNat - 1) = 34) ∧
    (1 ≤ (3 : Int) ∧ byteAt (bytes "[1]") ((3 : Int).toNat - 1) = 93) ∧
    (0 ≤ (2 : Int) ∧ (2 : Int).toNat < (bytes "42,").length ∧
      isTokenEndByte (byteAt (bytes "42,") (2 : Int).toNat) = true) :=
  ⟨(getValue_offset_lands (bytes "\"ab\"") (bytes "ab") .String 4 (by decide)).1 rfl,
   (getValue_offset_lands (bytes "[1]") (bytes "[1]") .Array 3 (by decide)).2.1 rfl,
   ((getValue_offset_lands (bytes "42,") (bytes "42") .Number 2
      (by decide)).2.2.2 (Or.inl rfl))⟩

/-- C7: on a buffer whose first byte is t, f or n, GetValue bounds the token with
tokenEnd and compares it with the exact literals: null gives type Null with an
empty slice, true and false give type Boolean with the literal bytes, any other
such token gives the UnknownValueType error, and a missing token terminator gives
the MalformedLiteral error. -/
theorem getValue_literal_rules (data : List Nat) (hne : data ≠ [])
    (hhead : byteAt data 0 = 116 ∨ byteAt data 0 = 102 ∨ byteAt data 0 = 110) :
    (tokenEnd data = -1 →
      GetValue data = ([], ValueType.Unknown, -1, some GoErr.malformedLiteral)) ∧
    (∀ n : Nat, tokenEnd data = ((n : Nat) : Int) →
      (data.take n = nullLiteral →
        GetValue data = ([], ValueType.Null, ((n : Nat) : Int), none)) ∧
      ((data.take n = trueLiteral ∨ data.take n = falseLiteral) →
        GetValue data = (data.take n, ValueType.Boolean, ((n : Nat) : Int), none)) ∧
      (data.take n ≠ nullLiteral → data.take n ≠ trueLiteral → data.take n ≠ falseLiteral →
        GetValue data = ([], ValueType.Unknown, -1, some GoErr.unknownValueType))) := by
  cases data with
  | nil => exact absurd rfl hne
  | cons c rest =>
    have hc : c = 116 ∨ c = 102 ∨ c = 110 := hhead
    have h34 : ¬ ((c == 34) = true) := by rcases hc with h | h | h <;> simp [h]
    have h91 : ¬ ((c == 91) = true) := by rcases hc with h | h | h <;> simp [h]
    have h123 : ¬ ((c == 123) = true) := by rcases hc with h | h | h <;> simp [h]
    have hlit : (c == 116 || c == 102 || c == 110) = true := by
      rcases hc with h | h | h <;> simp [h]
    constructor
    · intro ht
      simp only [GetValue, if_neg h34, if_neg h91, if_neg h123, if_pos hlit, ht]
      rfl
    · intro n hn
      have hne2 : ¬ (((n : Nat) : Int) = -1) := by omega
      have hton : (((n : Nat) : Int)).toNat = n := by omega
      refine ⟨?_, ?_, ?_⟩
      · intro hnull
        rcases hc with hcv | hcv | hcv <;> subst hcv <;>
          simp [GetValue, hn, hne2, hton, hnull]
      · intro hbool
        rcases hc with hcv | hcv | hcv <;> subst hcv <;> rcases hbool with hb | hb <;>
          simp [GetValue, hn, hne2, hton, hb] <;> decide
      · intro hn1 hn2 hn3
        rcases hc with hcv | hcv | hcv <;> subst hcv <;>
          simp [GetValue, hn, hne2, hton, hn1, hn2, hn3]

/-- Witness for getValue_literal_rules at the four concrete literal tokens. -/
theorem getValue_literal_rules_witness :
    GetValue (bytes "null]") = ([], ValueType.Null, ((4 : Nat) : Int), none) ∧
    GetValue (bytes "false]") = (bytes "false", ValueType.Boolean, ((5 : Nat) : Int), none) ∧
    GetValue (bytes "nul]") = ([], ValueType.Unknown, -1, some GoErr.unknownValueType) ∧
    GetValue (bytes "nul") = ([], ValueType.Unknown, -1, some GoErr.malformedLiteral) :=
  ⟨((getValue_literal_rules (bytes "null]") (by decide) (by decide)).2 4 (by decide)).1
      (by decide),
   (((getValue_literal_rules (bytes "false]") (by decide) (by decide)).2 5 (by decide)).2.1
      (Or.inr (by decide))),
   (((getValue_literal_rules (bytes "nul]") (by decide) (by decide)).2 3 (by decide)).2.2
      (by decide) (by decide) (by decide)),
   (getValue_literal_rules (bytes "nul") (by decide) (by decide)).1 (by decide)⟩

theorem nextArrayElementAux_stops_at_nonComma (c : Nat) (rest : List Nat)
    (hws : isWS c = false) (hcomma : c ≠ 44) :
    ∀ (pre : List Nat) (k : Nat), (∀ b ∈ pre, isWS b = true) →
      nextArrayElementAux (pre ++ (c :: rest)) k false = -1 := by
  intro pre
  induction pre with
  | nil =>
    intro k _
    show nextArrayElementAux (c :: rest) k false = -1
    simp [nextArrayElementAux, hws, hcomma]
  | cons w pre ih =>
    intro k h
    have hw : isWS w = true := h w (by simp)
    show nextArrayElementAux (w :: (pre ++ (c :: rest))) k false = -1
    simp only [nextArrayElementAux, hw, if_true]
    exact ih (k + 1) (fun b hb => h b (by simp [hb]))

theorem nextArrayElementAux_second_comma (rest : List Nat) :
    ∀ (mid : List Nat) (k : Nat), (∀ b ∈ mid, isWS b = true) →
      nextArrayElementAux (mid ++ (44 :: rest)) k true = -1 := by
  intro mid
  induction mid with
  | nil =>
    intro k _
    show nextArrayElementAux (44 :: rest) k true = -1
    simp [nextArrayElementAux, isWS]
  | cons w mid ih =>
    intro k h
    have hw : isWS w = true := h w (by simp)
    show nextArrayElementAux (w :: (mid ++ (44 :: rest))) k true = -1
    simp only [nextArrayElementAux, hw, if_true]
    exact ih (k + 1) (fun b hb => h b (by simp [hb]))

theorem nextArrayElementAux_first_comma (mid rest : List Nat)
    (hmid : ∀ b ∈ mid, isWS b = true) :
    ∀ (pre : List Nat) (k : Nat), (∀ b ∈ pre, isWS b = true) →
      nextArrayElementAux (pre ++ (44 :: (mid ++ (44 :: rest)))) k false = -1 := by
  intro pre
  induction pre with
  | nil =>
    intro k _
    show nextArrayElementAux (44 :: (mid ++ (44 :: rest))) k false = -1
    simp only [nextArrayElementAux]
    norm_num [isWS]
    exact nextArrayElementAux_second_comma rest mid (k + 1) hmid
  | cons w pre ih =>
    intro k h
    have hw : isWS w = true := h w (by simp)
    show nextArrayElementAux (w :: (pre ++ (44 :: (mid ++ (44 :: rest))))) k false = -1
    simp only [nextArrayElementAux, hw, if_true]
    exact ih (k + 1) (fun b hb => h b (by simp [hb]))

-- Claim theorems.

/-- C1: on the buffer of the nine characters bracket 1 comma space 2 comma space 3
bracket with an empty key path, ArrayEach invokes the visitor exactly three times,
in order, with element slices 1, 2 and 3, each classified as Number.  The claim
additionally asserts a nil error return, but the code then calls nextArrayElement
on the closing bracket, which reports -1, so ArrayEach actually returns the
MalformedArrayError after the third visit; this theorem records the full observed
behaviour at that input. -/
theorem arrayEach_visits_then_errors :
    ArrayEach (bytes "[1, 2, 3]") [] =
      some ([(bytes "1", ValueType.Number, 2, none), (bytes "2", ValueType.Number, 5, none),
        (bytes "3", ValueType.Number, 8, none)], some GoErr.malformedArray) := by
  decide

/-- C2: the claim asserts that searchKeys terminates on every input, in particular
on buffers holding an unterminated opening bracket.  It is refuted on the two byte
buffer of an opening brace followed by an opening bracket, with key path a:
blockEnd reports -1, the update of the index by blockEnd minus one steps the
cursor back onto the brace, and the loop revisits positions 0 and 1 forever, so no
fuel bound ever produces a result. -/
theorem searchKeys_unterminated_array_diverges :
    ∀ (fuel : Nat) (keyLevel : Nat) (level : Int),
      searchKeysLoop bugInput [bytes "a"] fuel 0 keyLevel level = none ∧
      searchKeysLoop bugInput [bytes "a"] fuel 1 keyLevel level = none := by
  intro fuel
  induction fuel with
  | zero => intro kl lvl; exact ⟨rfl, rfl⟩
  | succ f ih =>
    intro kl lvl
    exact ⟨(ih kl (lvl + 1)).2, (ih kl lvl).1⟩

/-- C3 counterexample: on the four byte buffer of two spaces then 42 with an empty
key path, Get does not return the slice 42 with type Number, offset 4 and no
error, contrary to the claim. -/
theorem get_bare_number_counterexample :
    ¬ (Get (bytes "  42") [] = some (bytes "42", ValueType.Number, 4, none)) := by
  decide

/-- C3 as amended: on the buffer of two spaces then 42 with an empty key path, Get
returns a nil slice, type Unknown, offset -1 and the MalformedNumberError, because
tokenEnd finds no terminator byte after the number token and reports -1, which
GetValue converts into the malformed number error. -/
theorem get_bare_number_malformed :
    Get (bytes "  42") [] = some ([], ValueType.Unknown, -1, some GoErr.malformedNumber) := by
  decide

/-- C4: stringEnd returns the index one past the first quote preceded by an even
number of consecutive backslashes, skipping every quote preceded by an odd number,
and the absent sentinel when no such quote exists; this is stated as agreement
with the specification-worded search on every buffer, together with the concrete
cases of 0, 1, 2 and 3 backslashes before a quote and two absent cases. -/
theorem stringEnd_escape_parity :
    (∀ data : List Nat, stringEnd data = specStringEnd data) ∧
    stringEnd (bytes "ab\" tail") = 3 ∧
    stringEnd (bytes "a\\\"b\"x") = 5 ∧
    stringEnd (bytes "a\\\\\"x") = 4 ∧
    stringEnd (bytes "a\\\\\\\"b\"c") = 7 ∧
    stringEnd (bytes "ab\\\"") = -1 ∧
    stringEnd (bytes "abc") = -1 :=
  ⟨stringEnd_eq_specStringEnd, by decide, by decide, by decide, by decide, by decide, by decide⟩

/-- C6: key path search never descends into array values: on the buffer holding an
object that maps key a to the array of 1 and 2, the path a then b fails, searchKeys
returns the not-found sentinel, and Get reports type NotExist with the
KeyPathNotFoundError. -/
theorem get_no_keys_inside_arrays :
    searchKeys objWithArrayInput [bytes "a", bytes "b"] = some (.ret (-1)) ∧
    Get objWithArrayInput [bytes "a", bytes "b"] =
      some ([], ValueType.NotExist, -1, some GoErr.keyPathNotFound) := by
  exact ⟨by decide, by decide⟩

/-- C8: on the buffer holding an object that maps key a to an object mapping key b
to 1, Get with path a then b succeeds and returns the slice 1 with type Number. -/
theorem get_nested_key_path :
    Get nestedObjInput [bytes "a", bytes "b"] =
      some (bytes "1", ValueType.Number, 11, none) := by
  decide

/-- C9: nextArrayElement returns the absent sentinel whenever a non-whitespace,
non-comma byte appears before any comma, and whenever a second comma appears
before any other content; consequently on the double-comma input ArrayEach
invokes the visitor exactly once, for the element 1, and then returns the
MalformedArrayError. -/
theorem nextArrayElement_malformation_guard :
    (∀ (pre : List Nat) (c : Nat) (rest : List Nat),
      (∀ b ∈ pre, isWS b = true) → isWS c = false → c ≠ 44 →
      nextArrayElement (pre ++ (c :: rest)) = -1) ∧
    (∀ (pre mid rest : List Nat),
      (∀ b ∈ pre, isWS b = true) → (∀ b ∈ mid, isWS b = true) →
      nextArrayElement (pre ++ (44 :: (mid ++ (44 :: rest)))) = -1) ∧
    ArrayEach (bytes "[1,,2]") [] =
      some ([(bytes "1", ValueType.Number, 2, none)], some GoErr.malformedArray) := by
  refine ⟨?_, ?_, by decide⟩
  · intro pre c rest hpre hws hcomma
    exact nextArrayElementAux_stops_at_nonComma c rest hws hcomma pre 0 hpre
  · intro pre mid rest hpre hmid
    exact nextArrayElementAux_first_comma mid rest hmid pre 0 hpre

/-- Witness for nextArrayElement_malformation_guard: a closing bracket before any
comma, and two adjacent commas. -/
theorem nextArrayElement_malformation_guard_witness :
    nextArrayElement [32, 93] = -1 ∧ nextArrayElement [44, 44, 49] = -1 :=
  ⟨nextArrayElement_malformation_guard.1 [32] 93 [] (by decide) (by decide) (by decide),
   nextArrayElement_malformation_guard.2.1 [] [] [49] (by decide) (by decide)⟩

/-- C10: Get with an empty key path on a buffer that is empty or holds only
whitespace bytes returns a nil slice, type Unknown, offset -1 and the fresh
generic malformed JSON error built at the call site, which as a Go error value is
distinct from every error kind of the taxonomy. -/
theorem get_whitespace_only_generic_error (data : List Nat)
    (h : ∀ b ∈ data, isWS b = true) :
    Get data [] = some ([], ValueType.Unknown, -1, some GoErr.newMalformedJson) ∧
    (GoErr.newMalformedJson ≠ GoErr.unknownValueType ∧
     GoErr.newMalformedJson ≠ GoErr.malformedJson ∧
     GoErr.newMalformedJson ≠ GoErr.malformedString ∧
     GoErr.newMalformedJson ≠ GoErr.malformedArray ∧
     GoErr.newMalformedJson ≠ GoErr.malformedObject ∧
     GoErr.newMalformedJson ≠ GoErr.malformedNumber ∧
     GoErr.newMalformedJson ≠ GoErr.malformedLiteral ∧
     GoErr.newMalformedJson ≠ GoErr.keyPathNotFound ∧
     GoErr.newMalformedJson ≠ GoErr.expectedArray) := by
  constructor
  · have hnt : nextToken data = -1 := nextTokenAux_all_ws data 0 h
    simp [Get, hnt]
  · decide

/-- Witness for get_whitespace_only_generic_error on a space and newline buffer. -/
theorem get_whitespace_only_generic_error_witness :
    Get [32, 10] [] = some ([], ValueType.Unknown, -1, some GoErr.newMalformedJson) :=
  (get_whitespace_only_generic_error [32, 10] (by decide)).1

end Jsonparser
